import Mathlib

/-!
Shallow embedding of the FinanceAI backend core (ranking, cache, rate
limiter, provider manager, stream orchestrator) together with proofs of
the behavioural properties stated in the specification.

JavaScript strings are modelled charwise (`List Char`); `toLowerCase`,
`trim`, `split` and friends are re-implemented structurally so that every
definition evaluates inside the kernel.  Floating-point scores are
modelled as rationals (all properties proved here are robust to rounding).
-/

namespace JsStr

/-- Charwise model of `String.prototype.toLowerCase`. -/
def toLower (s : List Char) : List Char := s.map Char.toLower

/-- Charwise model of `String.prototype.toUpperCase`. -/
def toUpper (s : List Char) : List Char := s.map Char.toUpper

/-- Charwise model of `String.prototype.trim` (strip leading and trailing
whitespace). -/
def trim (s : List Char) : List Char :=
  ((s.dropWhile Char.isWhitespace).reverse.dropWhile Char.isWhitespace).reverse

/-- Model of `split(sep)` for a single-character separator: splitting
`"a b"` gives `["a","b"]`, splitting the empty string gives `[""]`,
adjacent separators give empty groups (JavaScript semantics). -/
def splitCh (sep : Char) : List Char → List (List Char)
  | [] => [[]]
  | c :: rest =>
    if c = sep then [] :: splitCh sep rest
    else
      match splitCh sep rest with
      | [] => [[c]]
      | g :: gs => (c :: g) :: gs

/-- Join a list of groups with a single-character separator (inverse of
`splitCh`). -/
def joinCh (sep : Char) : List (List Char) → List Char
  | [] => []
  | [g] => g
  | g :: g2 :: gs => g ++ sep :: joinCh sep (g2 :: gs)

theorem splitCh_ne_nil (sep : Char) (s : List Char) : splitCh sep s ≠ [] := by
  cases s with
  | nil => simp [splitCh]
  | cons c rest =>
    simp only [splitCh]
    split
    · simp
    · cases h : splitCh sep rest <;> simp

theorem joinCh_splitCh (sep : Char) (s : List Char) :
    joinCh sep (splitCh sep s) = s := by
  induction s with
  | nil => simp [splitCh, joinCh]
  | cons c rest ih =>
    simp only [splitCh]
    by_cases hc : c = sep
    · subst hc
      simp only [if_pos rfl]
      cases h : splitCh c rest with
      | nil => exact absurd h (splitCh_ne_nil c rest)
      | cons g gs =>
        rw [h] at ih
        simp [joinCh, ih]
    · simp only [if_neg hc]
      cases h : splitCh sep rest with
      | nil => exact absurd h (splitCh_ne_nil sep rest)
      | cons g gs =>
        rw [h] at ih
        cases gs with
        | nil => simp [joinCh] at ih ⊢; exact ih
        | cons g2 gs2 => simp [joinCh] at ih ⊢; exact ih

/-- Non-overlapping occurrence count of `w` in `s`, the behaviour of
`(s.match(new RegExp(w, "g")) || []).length` for a pattern without regex
metacharacters.  An empty pattern matches at every position.  The `fuel`
argument makes the recursion structural; `countOcc` instantiates it with
the length of `s`, which always suffices because every step consumes at
least one character. -/
def countOccAux (w : List Char) : Nat → List Char → Nat
  | _, [] => 0
  | 0, _ => 0
  | fuel + 1, c :: rest =>
    if w.isPrefixOf (c :: rest) then
      1 + countOccAux w fuel ((c :: rest).drop w.length)
    else
      countOccAux w fuel rest

def countOcc (w s : List Char) : Nat :=
  match w with
  | [] => s.length + 1
  | _ => countOccAux w s.length s

/-- Substring test, the behaviour of `String.prototype.includes`. -/
def containsSub : List Char → List Char → Bool
  | hay, needle =>
    if needle.isPrefixOf hay then true
    else
      match hay with
      | [] => false
      | _ :: t => containsSub t needle

end JsStr

/-!
## services/sorting.js — `SortSourceService`

`sortSources` scores each candidate document against the query.  The
external embedding model composed with cosine similarity is abstracted as
an oracle `sim : String → Option ℚ` giving the similarity of a document
content to the query (`none` models a per-document embedding failure,
which the source skips).  `fallbackSorting` is the keyword path used when
the model is unavailable.
-/

namespace SortSourceService

/-- A search-result document.  Only the fields inspected by the ranking
logic are modelled (`url` is never read by it). -/
structure Doc where
  title : Option String
  content : Option String
deriving DecidableEq

/-- `arr.sort((a, b) => b.relevance_score - a.relevance_score)`:
descending sort on the score component. -/
def sortByScoreDesc (l : List (Doc × ℚ)) : List (Doc × ℚ) :=
  l.mergeSort (fun a b => decide (b.2 ≤ a.2))

/-- The guard `!content || content.trim().length === 0` of `sortSources`:
true when the content field is absent, empty, or whitespace-only. -/
def emptyContent (content : Option String) : Bool :=
  match content with
  | none => true
  | some c => JsStr.trim c.data = []

/-- The embedding-based main branch of `sortSources` (model loaded, query
embedding obtained): skip documents with missing/blank content, skip
documents whose embedding fails, keep those with similarity above `0.3`,
then sort descending by score. -/
def sortSourcesPrimary (sim : String → Option ℚ) (searchResults : List Doc) :
    List (Doc × ℚ) :=
  sortByScoreDesc <| searchResults.filterMap fun r =>
    match r.content with
    | none => none
    | some c =>
      if JsStr.trim c.data = [] then none
      else
        match sim c with
        | none => none
        | some score => if score > 3/10 then some (r, score) else none

/-- Keyword score of one document in `fallbackSorting`:
`min(Σ over query words of (contentMatches*0.1 + titleMatches*0.3) / wordCount, 1)`. -/
def fallbackScore (query : String) (d : Doc) : ℚ :=
  let queryWords := JsStr.splitCh ' ' (JsStr.toLower query.data)
  let content := JsStr.toLower (d.content.getD "").data
  let title := JsStr.toLower (d.title.getD "").data
  let raw : ℚ := (queryWords.map fun w =>
    (JsStr.countOcc w content : ℚ) * (1/10) + (JsStr.countOcc w title : ℚ) * (3/10)).sum
  min (raw / (queryWords.length : ℚ)) 1

/-- `fallbackSorting(query, searchResults)`: score every document, keep
scores above `0.1`, sort descending. -/
def fallbackSorting (query : String) (searchResults : List Doc) : List (Doc × ℚ) :=
  sortByScoreDesc <|
    (searchResults.map fun d => (d, fallbackScore query d)).filter fun p => p.2 > 1/10

theorem mem_sortByScoreDesc {p : Doc × ℚ} {l : List (Doc × ℚ)} :
    p ∈ sortByScoreDesc l ↔ p ∈ l := List.mem_mergeSort

end SortSourceService

/-!
## services/cache.js — `CacheService`

Redis is modelled as an explicit state: a keyed store of entries with an
absolute expiry instant, a keyed hit-counter store, a clock, and three
flags saying whether the next `get` / `incr` / `setex` round-trips fail
(rejections of the corresponding Redis promises).  A stored value is kept
as a typed `CacheData` record rather than a JSON string; `JSON.parse ∘
JSON.stringify` on the plain records written by `set` is the identity, so
serialisation is dropped from the model.
-/

namespace CacheService

/-- The record `set` writes: `{ data, timestamp: Date.now(), version: "1.0" }`. -/
structure CacheData (α : Type) where
  data : α
  timestamp : Nat
  version : String
deriving DecidableEq

structure RedisState (α : Type) where
  /-- key → (stored record, absolute expiry instant). -/
  store : String → Option (CacheData α × Nat)
  /-- hit-counter keys (`key:count`) → (value, absolute expiry instant). -/
  counts : String → Option (Nat × Nat)
  /-- the next `redis.get` rejects. -/
  getFails : Bool
  /-- the next `redis.incr` rejects. -/
  incrFails : Bool
  /-- the next `redis.setex` rejects. -/
  setFails : Bool
  /-- current time, seconds. -/
  now : Nat

/-- `CACHE_TTL_SECONDS` default. -/
def defaultTTL : Nat := 3600

/-- Plain Redis read: an entry is visible while `now` is strictly before
its expiry instant. -/
def redisGet {α : Type} (st : RedisState α) (key : String) : Option (CacheData α) :=
  match st.store key with
  | some (v, expiry) => if st.now < expiry then some v else none
  | none => none

/-- Pointwise function update used to model Redis writes. -/
def updFn {β : Type} (f : String → Option β) (k : String) (v : β) :
    String → Option β :=
  fun x => if x = k then some v else f x

/-- `get(key)`: inside one `try`, read the key; on a hit, parse and then
`await redis.incr(key + ":count")` before returning the data.  Any
rejection is caught and turned into `null`.  In particular a rejected
`incr` aborts the read. -/
def get {α : Type} (st : RedisState α) (key : String) :
    Option (CacheData α) × RedisState α :=
  if st.getFails then (none, st)
  else
    match redisGet st key with
    | some v =>
      if st.incrFails then (none, st)
      else
        (some v,
         { st with
           counts := updFn st.counts (key ++ ":count")
             (match st.counts (key ++ ":count") with
              | some (n, e) => (n + 1, e)
              | none => (1, 0)) })
    | none => (none, st)

/-- `set(key, data, ttl = null)`: `ttl || defaultTTL` (so a falsy `ttl`,
including `0`, silently becomes one hour), then `setex` for the value and
the hit counter; any rejection is caught and reported as `false`. -/
def set {α : Type} (st : RedisState α) (key : String) (data : α) (ttl : Nat) :
    Bool × RedisState α :=
  let expiry := if ttl = 0 then defaultTTL else ttl
  if st.setFails then (false, st)
  else
    (true,
     { st with
       store := updFn st.store key (⟨data, st.now, "1.0"⟩, st.now + expiry),
       counts := updFn st.counts (key ++ ":count") (1, st.now + expiry) })

/-- `generateKey(query, symbol = "", sources = [])`: md5 digest of the
JSON of the normalized triple, prefixed with `analysis:`.  The md5
function is a parameter (only its congruence is ever used). -/
def normalizeQuery (query : String) : List Char :=
  JsStr.trim (JsStr.toLower query.data)

def normalizeSymbol (symbol : String) : List Char :=
  JsStr.toUpper symbol.data

def normalizeSources (sources : List String) : List String :=
  (sources.take 5).mergeSort (fun a b => decide (a ≤ b))

/-- Rendering of the normalized record in the style of `JSON.stringify`
(key order fixed; escaping is not modelled — no theorem depends on the
exact text, only on it being a function of the normalized triple). -/
def jsonOfNormalized (q : List Char) (sym : List Char) (srcs : List String) :
    String :=
  String.mk [Char.ofNat 123] ++ "\"query\":\"" ++ String.mk q ++ "\",\"symbol\":\"" ++
    String.mk sym ++ "\",\"sources\":[" ++
    String.intercalate "," (srcs.map fun s => "\"" ++ s ++ "\"") ++ "]" ++
    String.mk [Char.ofNat 125]

def generateKey (md5 : String → String) (query : String) (symbol : String)
    (sources : List String) : String :=
  "analysis:" ++
    md5 (jsonOfNormalized (normalizeQuery query) (normalizeSymbol symbol)
      (normalizeSources sources))

end CacheService

/-!
## services/rateLimiter.js — `aiApiRateLimit`

Only the skip predicate of the strict per-minute AI profile is needed.
An Express request is modelled with the two fields the predicate reads;
`cacheHit` is an `Option Bool` because the property is an ordinary
JavaScript field that may be absent (`undefined`).
-/

namespace RateLimiter

structure Req where
  /-- request body `query` (absent or empty is falsy). -/
  query : Option String
  /-- `req.cacheHit`; `none` models the field never having been assigned. -/
  cacheHit : Option Bool
deriving DecidableEq

/-- The `skip` option of `aiApiRateLimit`:
`req.cacheHit === true || redis.status !== "ready"`. -/
def aiApiSkip (req : Req) (redisStatus : String) : Bool :=
  (req.cacheHit = some true : Bool) || (redisStatus ≠ "ready" : Bool)

/-- The request object reaching the limiter for `POST /chat`: no code in
the repository ever assigns `req.cacheHit` (the only occurrence of the
name outside the limiter is the unrelated `cacheHits` metric counter), so
the field is undefined on every request. -/
def mkChatReq (query : String) : Req := ⟨some query, none⟩

/-- The cache probe the `/chat` handler performs after the limiter has
already run: key from `generateKey(query)` with default `symbol`/`sources`
arguments, then `cacheService.get`. -/
def chatServedFromCache {α : Type} (md5 : String → String)
    (st : CacheService.RedisState α) (query : String) : Bool :=
  ((CacheService.get st (CacheService.generateKey md5 query "" [])).1).isSome

end RateLimiter

/-!
## services/aiProviders.js — `AIProviderManager`

The two HTTP backends are abstracted as an oracle `callOk : String → Bool`
saying whether a call to the named provider succeeds.  `makeRequest` is a
recursive method with no structural bound in the source, so it is
modelled with explicit fuel; `outOfFuel` is the observation that the
recursion never returns.
-/

namespace AIProviderManager

structure Provider where
  name : String
  /-- whether the API key environment variable is set (`provider.key`). -/
  hasKey : Bool
  dailyLimit : Nat
  currentUsage : Nat
  priority : Nat
deriving DecidableEq

/-- The `this.providers` map: exactly the keys `gemini` and `openai`. -/
structure ProvState where
  gemini : Provider
  openai : Provider
deriving DecidableEq

def getProvider (st : ProvState) : String → Option Provider
  | "gemini" => some st.gemini
  | "openai" => some st.openai
  | _ => none

/-- `canUseProvider`: the provider exists, has a key, and is under its
daily limit. -/
def canUseProvider (st : ProvState) (n : String) : Bool :=
  match getProvider st n with
  | some p => p.hasKey && decide (p.currentUsage < p.dailyLimit)
  | none => false

/-- `selectProvider(complexity = 0.5)`.  Note that it receives only the
complexity — the `excludeProvider` option of the retry call is never
passed in and never read. -/
def selectProvider (st : ProvState) (complexity : ℚ) : Option Provider :=
  if complexity < 3/10 ∧ canUseProvider st "gemini" then some st.gemini
  else if canUseProvider st "gemini" then some st.gemini
  else if canUseProvider st "openai" then some st.openai
  else none

/-- `getFallbackProvider(excludeProvider)`: the usable providers other
than the excluded one, sorted by priority, first one or none. -/
def getFallbackProvider (st : ProvState) (excludeProvider : String) :
    Option Provider :=
  (([st.gemini, st.openai].filter fun p =>
      p.name ≠ excludeProvider ∧ canUseProvider st p.name).mergeSort
    (fun a b => decide (a.priority ≤ b.priority))).head?

/-- The options bag of `makeRequest`. -/
structure Opts where
  complexity : Option ℚ
  excludeProvider : Option String
deriving DecidableEq

/-- `options.complexity || 0.5` (a missing or zero complexity is falsy). -/
def effComplexity (o : Opts) : ℚ :=
  match o.complexity with
  | some c => if c = 0 then 1/2 else c
  | none => 1/2

def bumpUsage (st : ProvState) (n : String) : ProvState :=
  if n = "gemini" then
    { st with gemini := { st.gemini with currentUsage := st.gemini.currentUsage + 1 } }
  else if n = "openai" then
    { st with openai := { st.openai with currentUsage := st.openai.currentUsage + 1 } }
  else st

inductive MRes
  /-- a provider call succeeded; carries the provider name. -/
  | ok (provider : String)
  /-- `selectProvider` threw `No AI providers available`. -/
  | noProviders
  /-- the call failed and no fallback was available: the error propagates. -/
  | callFailed (provider : String)
  /-- the recursion did not return within the given fuel. -/
  | outOfFuel
deriving DecidableEq

/-- `makeRequest(prompt, options)`: select a provider, call it; on success
bump its usage and return; on failure, if `getFallbackProvider` finds an
alternative, recurse with `excludeProvider` recorded in the options
(which `selectProvider` ignores), else rethrow. -/
def makeRequest (callOk : String → Bool) :
    Nat → ProvState → Opts → MRes × ProvState
  | 0, st, _ => (.outOfFuel, st)
  | fuel + 1, st, opts =>
    match selectProvider st (effComplexity opts) with
    | none => (.noProviders, st)
    | some p =>
      if callOk p.name then (.ok p.name, bumpUsage st p.name)
      else
        match getFallbackProvider st p.name with
        | some _ =>
          makeRequest callOk fuel st { opts with excludeProvider := some p.name }
        | none => (.callFailed p.name, st)

end AIProviderManager

/-!
## services/stock.js — `extractKeyMetrics`

The generative collaborator is abstracted as `gen : Except String String`:
`ok text` is the text returned by `result.response.text()`, `error msg`
is any rejection inside the `try` (network failure, missing content
field, …), which the source catches, returning a fixed fallback record.
The returned JavaScript object is modelled as an association list with
unique keys written by `setKey` (property assignment) and read by
`lookupA` (property access).
-/

namespace StockAnalysisService

/-- JavaScript object property assignment `d[k] = v` on an object built
from `{}` by assignments: replace in place, or append a new key. -/
def setKey : List (String × String) → String → String → List (String × String)
  | [], k, v => [(k, v)]
  | (k1, v1) :: rest, k, v =>
    if k1 = k then (k, v) :: rest else (k1, v1) :: setKey rest k v

/-- JavaScript object property read `d[k]` (`none` = `undefined`). -/
def lookupA : List (String × String) → String → Option String
  | [], _ => none
  | (k1, v) :: rest, k => if k1 = k then some v else lookupA rest k

/-- One iteration of the parsing loop: lines containing `:` are split on
the first colon into key and value, both trimmed, and assigned. -/
def parseLine (d : List (String × String)) (line : List Char) :
    List (String × String) :=
  if JsStr.containsSub line [':'] then
    match JsStr.splitCh ':' line with
    | k :: v :: _ => setKey d (String.mk (JsStr.trim k)) (String.mk (JsStr.trim v))
    | _ => d
  else d

/-- `metricsText.trim().split("\n")` folded through the parsing loop. -/
def parseMetrics (text : String) : List (String × String) :=
  (JsStr.splitCh '\n' (JsStr.trim text.data)).foldl parseLine []

def defaultMetrics : List String :=
  ["PE Ratio", "EPS", "Revenue", "Market Cap",
   "Profit Margin", "Debt-to-Equity", "Current Ratio", "Dividend Yield"]

/-- `if (!metricsDict[metric]) metricsDict[metric] = "N/A"` for each
default metric (an absent or empty value is falsy). -/
def addDefaults (d : List (String × String)) : List (String × String) :=
  defaultMetrics.foldl
    (fun acc m =>
      match lookupA acc m with
      | some v => if v = "" then setKey acc m "N/A" else acc
      | none => setKey acc m "N/A")
    d

/-- The record returned from the `catch` block. -/
def fallbackMetrics (msg : String) : List (String × String) :=
  [("PE Ratio", "N/A"), ("EPS", "N/A"), ("Revenue", "N/A"), ("Market Cap", "N/A"),
   ("Profit Margin", "N/A"), ("Debt-to-Equity", "N/A"), ("Current Ratio", "N/A"),
   ("Dividend Yield", "N/A"), ("_extraction_error", msg)]

/-- `extractKeyMetrics`: parse the generated text and fill the defaults,
or — when anything inside the `try` rejected — return the fallback
record.  The function is total: it never throws. -/
def extractKeyMetrics (gen : Except String String) : List (String × String) :=
  match gen with
  | .error msg => fallbackMetrics msg
  | .ok text => addDefaults (parseMetrics text)

/-- The value the specification expects for metric `m`: the parsed value
when one was extracted (non-empty), `N/A` otherwise. -/
def expectedMetric (gen : Except String String) (m : String) : String :=
  match gen with
  | .error _ => "N/A"
  | .ok text =>
    match lookupA (parseMetrics text) m with
    | some v => if v = "" then "N/A" else v
    | none => "N/A"

end StockAnalysisService

/-!
## server.js — recommendation derivation, cached-replay chunking, and the
per-session event traces of the two WebSocket handlers
-/

namespace Server

/-- An apostrophe, kept out of string literals. -/
def apos : String := String.mk [Char.ofNat 39]

def dontBuy : String := "don" ++ apos ++ "t buy"

def dontSell : String := "don" ++ apos ++ "t sell"

def includes (s sub : String) : Bool := JsStr.containsSub s.data sub.data

/-- The recommendation branch of `POST /stock-analysis`: lower-case the
assembled analysis, then the if/else-if chain on `buy` / `hold` / `sell`
with the negated `dont buy` / `dont sell` guards. -/
def deriveRecommendation (completeResponse : String) : String :=
  let t := String.mk (JsStr.toLower completeResponse.data)
  if includes t "buy" && !includes t dontBuy then "Buy"
  else if includes t "hold" then "Hold"
  else if includes t "sell" && !includes t dontSell then "Sell"
  else "Neutral"

/-- The word groups of the cached-chat replay loop
`for (i = 0; i < words.length; i += 3) words.slice(i, i + 3)`. -/
def groups3 {α : Type} : List α → List (List α)
  | [] => []
  | [a] => [[a]]
  | [a, b] => [[a, b]]
  | a :: b :: c :: rest => [a, b, c] :: groups3 rest

/-- Chat cache-hit replay: split the cached response on spaces, emit each
group of three words rejoined with spaces plus a trailing space. -/
def chatReplayFragments (response : String) : List (List Char) :=
  (groups3 (JsStr.splitCh ' ' response.data)).map fun g => JsStr.joinCh ' ' g ++ [' ']

/-- Characters the regexp `.` does not match. -/
def isLineTerm (c : Char) : Bool :=
  c = '\n' || c = '\r' || c = Char.ofNat 0x2028 || c = Char.ofNat 0x2029

/-- The successive matches of `analysis.match(/.{1,50}/g)`: skip line
terminators, take up to fifty other characters per match.  Structural via
fuel; every step consumes at least one character, so fuel = length
suffices. -/
def regexChunksAux : Nat → List Char → List (List Char)
  | _, [] => []
  | 0, _ :: _ => []
  | fuel + 1, c :: rest =>
    if isLineTerm c then regexChunksAux fuel rest
    else
      ((c :: rest).takeWhile (fun x => !isLineTerm x)).take 50 ::
        regexChunksAux fuel
          ((c :: rest).drop (((c :: rest).takeWhile (fun x => !isLineTerm x)).take 50).length)

def regexChunks (s : List Char) : List (List Char) :=
  regexChunksAux s.length s

/-- Stock cache-hit replay: `analysis.match(/.{1,50}/g) || [analysis]` —
a `null` match result (no matchable character) falls back to the whole
analysis as the single fragment. -/
def stockReplayFragments (analysis : String) : List (List Char) :=
  if regexChunks analysis.data = [] then [analysis.data]
  else regexChunks analysis.data

/-- The socket events emitted by the two handlers (payloads are not
needed by the ordering claims). -/
inductive Ev
  | searchResult
  | processing
  | content
  | metrics
  | done
  | error
deriving DecidableEq

/-- `!x` on a request field holding a string: absent or empty. -/
def falsyStr : Option String → Bool
  | none => true
  | some s => s = ""

/-- Event trace of `socket.on("chat")`.  `cached` is the cache probe
result (its `response` drives the replay loop), `chunks` the fragments
produced by the LLM generator on a miss (that generator catches its own
failures and yields an error string, so pulling it never throws), and
`webSearchOk` whether `searchService.webSearch` resolves — the only
awaited operation in the handler that can reject; a rejection lands in
the `catch`, which emits `error`.  `cacheService.get`/`set` and
`sortSources` catch internally and never reject. -/
def chatTrace (query : Option String) (cached : Option String)
    (chunks : List String) (webSearchOk : Bool) : List Ev :=
  if falsyStr query then [.error]
  else
    match cached with
    | some response =>
      .searchResult :: ((chatReplayFragments response).map fun _ => Ev.content) ++ [.done]
    | none =>
      if !webSearchOk then [.error]
      else
        .searchResult :: (chunks.map fun _ => Ev.content) ++ [.done]

/-- Event trace of `socket.on("stock-analysis")`.  On a hit the cached
analysis is replayed in fixed-length slices between `search_result` /
`processing` and `metrics` / `done`.  On a miss, content fragments stream
(the generator catches its own failures), then the metrics race settles —
either branch of its inner try/catch emits one `metrics` event — and
`done` follows.  `webSearchOk` as in `chatTrace`. -/
def stockTrace (stockName : Option String) (cached : Option String)
    (chunks : List String) (webSearchOk : Bool) : List Ev :=
  if falsyStr stockName then [.error]
  else
    match cached with
    | some analysis =>
      .searchResult :: .processing ::
        ((stockReplayFragments analysis).map fun _ => Ev.content) ++ [.metrics, .done]
    | none =>
      if !webSearchOk then [.error]
      else
        .searchResult :: .processing ::
          (chunks.map fun _ => Ev.content) ++ [.metrics, .done]

/-- The three ordering guarantees of the specification, phrased on a
trace: every `content` is preceded by a `search_result`; everything after
a `metrics` is free of `content` and contains a later `done`; nothing
after an `error` is a `done`. -/
def orderOk (t : List Ev) : Prop :=
  (∀ l1 l2, t = l1 ++ Ev.content :: l2 → Ev.searchResult ∈ l1) ∧
  (∀ l1 l2, t = l1 ++ Ev.metrics :: l2 → Ev.content ∉ l2 ∧ Ev.done ∈ l2) ∧
  (∀ l1 l2, t = l1 ++ Ev.error :: l2 → Ev.done ∉ l2)

end Server

/-!
## Claim theorems
-/

/-- Claim C6: cache-key derivation is a pure function insensitive to query
case and surrounding whitespace — two inputs whose queries agree after
lower-casing and trimming, whose symbols agree after upper-casing, and
whose first five source identifiers agree after sorting, are mapped by
`generateKey` to the same key, for every digest function. -/
theorem c6_generateKey_congruence (md5 : String → String)
    (q1 q2 sym1 sym2 : String) (src1 src2 : List String)
    (hq : CacheService.normalizeQuery q1 = CacheService.normalizeQuery q2)
    (hsym : CacheService.normalizeSymbol sym1 = CacheService.normalizeSymbol sym2)
    (hsrc : CacheService.normalizeSources src1 = CacheService.normalizeSources src2) :
    CacheService.generateKey md5 q1 sym1 src1 =
      CacheService.generateKey md5 q2 sym2 src2 := by
  unfold CacheService.generateKey
  rw [hq, hsym, hsrc]

/-- Witness for C6 at concrete inputs: `"  Apple INC "` and `"apple inc"`
normalize identically, as do the symbols `"nvda"`/`"NVDA"` and the
(short, already sorted) source lists. -/
theorem c6_generateKey_congruence_witness :
    CacheService.generateKey (fun s => s) "  Apple INC " "nvda" ["b", "a"] =
      CacheService.generateKey (fun s => s) "apple inc" "NVDA" ["a", "b"] := by
  apply c6_generateKey_congruence
  · decide
  · decide
  · unfold CacheService.normalizeSources
    simp only [List.take]
    simp [List.mergeSort, List.merge]
    decide

/-- Claim C10: the recommendation derived by `POST /stock-analysis` from
the assembled analysis text is a deterministic function of that text,
always one of Buy/Hold/Sell/Neutral, with Buy taking precedence over Hold
and Hold over Sell, and a text containing `dont buy` (with apostrophe)
never yields Buy. -/
theorem c10_recommendation (text : String) :
    Server.deriveRecommendation text ∈ (["Buy", "Hold", "Sell", "Neutral"] : List String) ∧
    (Server.includes (String.mk (JsStr.toLower text.data)) Server.dontBuy = true →
      Server.deriveRecommendation text ≠ "Buy") ∧
    ((Server.includes (String.mk (JsStr.toLower text.data)) "buy" &&
        !Server.includes (String.mk (JsStr.toLower text.data)) Server.dontBuy) = true →
      Server.deriveRecommendation text = "Buy") ∧
    ((Server.includes (String.mk (JsStr.toLower text.data)) "buy" &&
        !Server.includes (String.mk (JsStr.toLower text.data)) Server.dontBuy) = false →
      Server.includes (String.mk (JsStr.toLower text.data)) "hold" = true →
      Server.deriveRecommendation text = "Hold") ∧
    ((Server.includes (String.mk (JsStr.toLower text.data)) "buy" &&
        !Server.includes (String.mk (JsStr.toLower text.data)) Server.dontBuy) = false →
      Server.includes (String.mk (JsStr.toLower text.data)) "hold" = false →
      (Server.includes (String.mk (JsStr.toLower text.data)) "sell" &&
        !Server.includes (String.mk (JsStr.toLower text.data)) Server.dontSell) = true →
      Server.deriveRecommendation text = "Sell") := by
  set t := String.mk (JsStr.toLower text.data) with ht
  have hDef : Server.deriveRecommendation text =
      (if Server.includes t "buy" && !Server.includes t Server.dontBuy then "Buy"
       else if Server.includes t "hold" then "Hold"
       else if Server.includes t "sell" && !Server.includes t Server.dontSell then "Sell"
       else "Neutral") := rfl
  by_cases hb : (Server.includes t "buy" && !Server.includes t Server.dontBuy) = true
  · have hr : Server.deriveRecommendation text = "Buy" := by rw [hDef, if_pos hb]
    refine ⟨by rw [hr]; decide, ?_, fun _ => hr,
      fun hf _ => by rw [hf] at hb; exact Bool.noConfusion hb,
      fun hf _ _ => by rw [hf] at hb; exact Bool.noConfusion hb⟩
    intro hdont
    have hb2 := hb
    rw [Bool.and_eq_true] at hb2
    have h2 := hb2.2
    rw [Bool.not_eq_true', hdont] at h2
    exact Bool.noConfusion h2
  · rw [Bool.not_eq_true] at hb
    by_cases hh : Server.includes t "hold" = true
    · have hr : Server.deriveRecommendation text = "Hold" := by
        rw [hDef, if_neg (by rw [hb]; decide), if_pos hh]
      exact ⟨by rw [hr]; decide, fun _ => by rw [hr]; decide,
        fun h => by rw [hb] at h; exact Bool.noConfusion h,
        fun _ _ => hr,
        fun _ hhf _ => by rw [hhf] at hh; exact Bool.noConfusion hh⟩
    · rw [Bool.not_eq_true] at hh
      by_cases hs : (Server.includes t "sell" && !Server.includes t Server.dontSell) = true
      · have hr : Server.deriveRecommendation text = "Sell" := by
          rw [hDef, if_neg (by rw [hb]; decide), if_neg (by rw [hh]; decide), if_pos hs]
        exact ⟨by rw [hr]; decide, fun _ => by rw [hr]; decide,
          fun h => by rw [hb] at h; exact Bool.noConfusion h,
          fun _ h => by rw [hh] at h; exact Bool.noConfusion h,
          fun _ _ _ => hr⟩
      · rw [Bool.not_eq_true] at hs
        have hr : Server.deriveRecommendation text = "Neutral" := by
          rw [hDef, if_neg (by rw [hb]; decide), if_neg (by rw [hh]; decide),
            if_neg (by rw [hs]; decide)]
        exact ⟨by rw [hr]; decide, fun _ => by rw [hr]; decide,
          fun h => by rw [hb] at h; exact Bool.noConfusion h,
          fun _ h => by rw [hh] at h; exact Bool.noConfusion h,
          fun _ _ h => by rw [hs] at h; exact Bool.noConfusion h⟩

/-- Witness for C10: a text containing `buy` (and no `dont buy`) derives
`Buy`. -/
theorem c10_recommendation_witness :
    Server.deriveRecommendation "We recommend a strong BUY here" = "Buy" :=
  (c10_recommendation "We recommend a strong BUY here").2.2.1 (by decide)

/-- A Redis state holding a fresh entry for the key `analysis:h` (ten
seconds of life left), with Redis healthy. -/
def c3State : CacheService.RedisState Nat :=
  ⟨fun k => if k = "analysis:h" then some (⟨0, 0, "1.0"⟩, 10) else none,
   fun _ => none, false, false, false, 3⟩

/-- Claim C3 is false of the code: a `POST /chat` request whose answer is
in the cache (the handler probe hits) still has the strict limiter skip
predicate evaluate to `false` when Redis is ready, because `req.cacheHit`
is never assigned anywhere in the repository — the flag the predicate
tests is always `undefined`. -/
theorem c3_cache_hit_not_skipped :
    RateLimiter.chatServedFromCache (fun _ => "h") c3State "q" = true ∧
    RateLimiter.aiApiSkip (RateLimiter.mkChatReq "q") "ready" = false := by
  constructor
  · rfl
  · rfl

/-- A Redis state with the key `k` present and unexpired but whose next
`incr` round-trip rejects. -/
def c4State : CacheService.RedisState Nat :=
  ⟨fun k => if k = "k" then some (⟨5, 0, "1.0"⟩, 10) else none,
   fun _ => none, false, true, false, 3⟩

/-- Counterexample to claim C4: the entry for `k` is present and
unexpired, yet `get` returns a miss, because the hit-counter `incr`
rejects inside the same `try` whose `catch` returns `null`. -/
theorem c4_counterexample :
    CacheService.redisGet c4State "k" = some ⟨5, 0, "1.0"⟩ ∧
    (CacheService.get c4State "k").1 = none := by
  exact ⟨rfl, rfl⟩

/-- Claim C4 as amended: for a present, unexpired entry, `get` returns
the entry if the hit-counter increment succeeds, and a miss (`null`,
not an error) if the increment fails — the increment failure is caught
but aborts the read. -/
theorem c4_amended (α : Type) (st : CacheService.RedisState α) (key : String)
    (v : CacheService.CacheData α) (hget : st.getFails = false)
    (hhit : CacheService.redisGet st key = some v) :
    (CacheService.get st key).1 = if st.incrFails then none else some v := by
  unfold CacheService.get
  rw [hget, hhit]
  cases h : st.incrFails <;> simp [h]

/-- Witness for C4 as amended, at the concrete failing state. -/
theorem c4_amended_witness :
    (CacheService.get c4State "k").1 =
      if c4State.incrFails then none else some ⟨5, 0, "1.0"⟩ :=
  c4_amended Nat c4State "k" ⟨5, 0, "1.0"⟩ rfl rfl

/-- An empty, healthy Redis state with the clock at 100. -/
def c7State : CacheService.RedisState Nat :=
  ⟨fun _ => none, fun _ => none, false, false, false, 100⟩

/-- Counterexample to claim C7 at `ttl = 0`: `set` with a zero ttl stores
the entry for the default 3600 seconds (`ttl || defaultTTL` treats `0` as
falsy), so a `get` at the same instant — zero seconds, hence at least
`ttl` seconds, after the write — still returns the payload instead of the
miss the claim requires after ttl has elapsed. -/
theorem c7_counterexample :
    (CacheService.set c7State "k" 7 0).2.now = c7State.now + 0 ∧
    (CacheService.get (CacheService.set c7State "k" 7 0).2 "k").1 =
      some ⟨7, 100, "1.0"⟩ := by
  exact ⟨rfl, rfl⟩

/-- Claim C7 as amended: for every positive ttl (and healthy Redis),
`set` then `get` strictly before ttl seconds have elapsed returns the
stored payload unchanged, and `get` once at least ttl seconds have
elapsed returns a miss. -/
theorem c7_amended (α : Type) (st : CacheService.RedisState α) (key : String)
    (data : α) (ttl t2 : Nat) (hset : st.setFails = false)
    (hget : st.getFails = false) (hincr : st.incrFails = false)
    (hpos : 0 < ttl) :
    (st.now ≤ t2 → t2 - st.now < ttl →
      ((CacheService.get { (CacheService.set st key data ttl).2 with now := t2 }
          key).1).map CacheService.CacheData.data = some data) ∧
    (st.now + ttl ≤ t2 →
      (CacheService.get { (CacheService.set st key data ttl).2 with now := t2 }
          key).1 = none) := by
  have httl : ttl ≠ 0 := Nat.pos_iff_ne_zero.1 hpos
  unfold CacheService.set
  rw [hset]
  simp only [if_neg httl, Bool.false_eq_true, if_false]
  constructor
  · intro hle hlt
    unfold CacheService.get CacheService.redisGet
    simp only [hget, hincr]
    unfold CacheService.updFn
    simp only [if_pos rfl]
    have : t2 < st.now + ttl := by omega
    simp [this]
  · intro hge
    unfold CacheService.get CacheService.redisGet
    simp only [hget, hincr]
    unfold CacheService.updFn
    simp only [if_pos rfl]
    have : ¬(t2 < st.now + ttl) := by omega
    simp [this]

/-- Witness for C7 as amended: write `7` under `k` with a five-second
ttl at time 100, read back at time 102 (hit, payload unchanged) and at
time 105 (miss). -/
theorem c7_amended_witness :
    (((CacheService.get { (CacheService.set c7State "k" 7 5).2 with now := 102 }
        "k").1).map CacheService.CacheData.data = some 7) ∧
    ((CacheService.get { (CacheService.set c7State "k" 7 5).2 with now := 105 }
        "k").1 = none) :=
  ⟨(c7_amended Nat c7State "k" 7 5 102 rfl rfl rfl (by decide)).1 (by decide) (by decide),
   (c7_amended Nat c7State "k" 7 5 105 rfl rfl rfl (by decide)).2 (by decide)⟩

/-- Provider state with both backends configured and far under quota:
gemini (priority 1, 0/50 used) and openai (priority 2, 0/100 used). -/
def c2State : AIProviderManager.ProvState :=
  ⟨⟨"gemini", true, 50, 0, 1⟩, ⟨"openai", true, 100, 0, 2⟩⟩

/-- Call oracle for the failing scenario: every call to gemini rejects
(for example a network error), every call to openai would succeed. -/
def c2CallOk : String → Bool := fun n => n != "gemini"

theorem c2_selectProvider_ignores_options (c : ℚ) :
    AIProviderManager.selectProvider c2State c = some c2State.gemini := by
  unfold AIProviderManager.selectProvider
  by_cases h : c < 3/10
  · rw [if_pos ⟨h, by decide⟩]
  · rw [if_neg (fun hc => h hc.1), if_pos (by decide : AIProviderManager.canUseProvider c2State "gemini" = true)]

theorem c2_fallback_exists :
    AIProviderManager.getFallbackProvider c2State "gemini" =
      some ⟨"openai", true, 100, 0, 2⟩ := by
  unfold AIProviderManager.getFallbackProvider
  have h : ([c2State.gemini, c2State.openai].filter fun p =>
      decide (p.name ≠ "gemini" ∧ AIProviderManager.canUseProvider c2State p.name = true)) =
      [⟨"openai", true, 100, 0, 2⟩] := by decide
  rw [h]
  simp [List.mergeSort]

/-- Claim C2 is false of the code: with both providers eligible and the
selected one (gemini) failing on every call, `makeRequest` never reaches
the other provider and never propagates the error — it re-selects gemini
for ever, because the recursive retry passes `excludeProvider` in the
options but `selectProvider` never reads it.  For every recursion budget
the fueled model runs out of fuel, for every options bag, and the state
is never advanced. -/
theorem c2_makeRequest_diverges :
    ∀ (fuel : Nat) (opts : AIProviderManager.Opts),
      AIProviderManager.makeRequest c2CallOk fuel c2State opts =
        (AIProviderManager.MRes.outOfFuel, c2State) := by
  intro fuel
  induction fuel with
  | zero => intro opts; rfl
  | succ n ih =>
    intro opts
    show AIProviderManager.makeRequest c2CallOk (n + 1) c2State opts = _
    simp only [AIProviderManager.makeRequest, c2_selectProvider_ignores_options]
    rw [show c2CallOk c2State.gemini.name = false from rfl,
      if_neg (by decide : ¬ (false = true)),
      show c2State.gemini.name = "gemini" from rfl, c2_fallback_exists]
    exact ih _

/-!
### Lemmas for C9 (association-list object model)
-/

namespace StockAnalysisService

theorem lookupA_setKey_self (d : List (String × String)) (k v : String) :
    lookupA (setKey d k v) k = some v := by
  induction d with
  | nil => simp [setKey, lookupA]
  | cons p rest ih =>
    obtain ⟨k1, v1⟩ := p
    by_cases h : k1 = k
    · simp [setKey, lookupA, h]
    · simp [setKey, lookupA, h, ih]

theorem lookupA_setKey_ne (d : List (String × String)) (k v k2 : String)
    (h : k2 ≠ k) : lookupA (setKey d k v) k2 = lookupA d k2 := by
  have h2 : ¬ k = k2 := fun hh => h hh.symm
  induction d with
  | nil => simp [setKey, lookupA, h2]
  | cons p rest ih =>
    obtain ⟨k1, v1⟩ := p
    by_cases h1 : k1 = k
    · subst h1
      simp [setKey, lookupA, h2]
    · simp only [setKey, if_neg h1, lookupA]
      by_cases h3 : k1 = k2
      · simp [h3]
      · simp [h3, ih]

/-- One step of the default-filling loop of `extractKeyMetrics`. -/
def addStep (acc : List (String × String)) (m : String) : List (String × String) :=
  match lookupA acc m with
  | some v => if v = "" then setKey acc m "N/A" else acc
  | none => setKey acc m "N/A"

theorem addDefaults_eq_foldl (d : List (String × String)) :
    addDefaults d = defaultMetrics.foldl addStep d := rfl

theorem lookupA_addStep_ne (d : List (String × String)) (k m : String)
    (h : m ≠ k) : lookupA (addStep d k) m = lookupA d m := by
  unfold addStep
  cases hk : lookupA d k with
  | none => exact lookupA_setKey_ne d k "N/A" m h
  | some v =>
    by_cases hv : v = ""
    · simp only [hv, if_pos rfl]
      exact lookupA_setKey_ne d k "N/A" m h
    · simp [hv]

theorem lookupA_addStep_self (d : List (String × String)) (m : String) :
    lookupA (addStep d m) m =
      some (match lookupA d m with
            | some v => if v = "" then "N/A" else v
            | none => "N/A") := by
  unfold addStep
  cases hk : lookupA d m with
  | none => simp [lookupA_setKey_self]
  | some v =>
    by_cases hv : v = ""
    · simp [hv, lookupA_setKey_self]
    · simp [hv, hk]

theorem lookupA_foldl_addStep_not_mem (ms : List String)
    (d : List (String × String)) (m : String) (h : m ∉ ms) :
    lookupA (ms.foldl addStep d) m = lookupA d m := by
  induction ms generalizing d with
  | nil => rfl
  | cons k rest ih =>
    have hne : m ≠ k := fun hh => h (hh ▸ List.mem_cons_self k rest)
    have hrest : m ∉ rest := fun hh => h (List.mem_cons_of_mem k hh)
    rw [List.foldl_cons, ih (addStep d k) hrest, lookupA_addStep_ne d k m hne]

theorem lookupA_foldl_addStep_mem (ms : List String)
    (d : List (String × String)) (m : String) (h : m ∈ ms) (hnd : ms.Nodup) :
    lookupA (ms.foldl addStep d) m =
      some (match lookupA d m with
            | some v => if v = "" then "N/A" else v
            | none => "N/A") := by
  induction ms generalizing d with
  | nil => exact absurd h (List.not_mem_nil m)
  | cons k rest ih =>
    rw [List.nodup_cons] at hnd
    rw [List.foldl_cons]
    by_cases hk : m = k
    · subst hk
      rw [lookupA_foldl_addStep_not_mem rest (addStep d m) m hnd.1,
        lookupA_addStep_self]
    · rcases List.mem_cons.1 h with hh | hh
      · exact absurd hh hk
      · rw [ih (addStep d k) hh hnd.2, lookupA_addStep_ne d k m hk]

end StockAnalysisService

/-- Claim C9: `extractKeyMetrics` is total (it catches every failure of
the generative collaborator), and its result binds every one of the eight
default metric names to a string — the parsed value when one was
extracted, `N/A` otherwise (including the whole-call-failed fallback). -/
theorem c9_extractKeyMetrics_defaults (gen : Except String String) (m : String)
    (h : m ∈ StockAnalysisService.defaultMetrics) :
    StockAnalysisService.lookupA (StockAnalysisService.extractKeyMetrics gen) m =
      some (StockAnalysisService.expectedMetric gen m) := by
  cases gen with
  | error msg =>
    have h8 : StockAnalysisService.defaultMetrics =
        ["PE Ratio", "EPS", "Revenue", "Market Cap", "Profit Margin",
         "Debt-to-Equity", "Current Ratio", "Dividend Yield"] := rfl
    rw [h8] at h
    simp only [List.mem_cons, List.not_mem_nil, or_false] at h
    rcases h with h | h | h | h | h | h | h | h <;> subst h <;> rfl
  | ok text =>
    show StockAnalysisService.lookupA
      (StockAnalysisService.addDefaults (StockAnalysisService.parseMetrics text)) m = _
    rw [StockAnalysisService.addDefaults_eq_foldl,
      StockAnalysisService.lookupA_foldl_addStep_mem _ _ _ h (by decide)]
    rfl

/-- Witness for C9: a generated text carrying a PE ratio and an empty EPS
value — the parsed value survives, the falsy one is replaced by `N/A`. -/
theorem c9_extractKeyMetrics_defaults_witness :
    StockAnalysisService.lookupA
        (StockAnalysisService.extractKeyMetrics
          (Except.ok "PE Ratio: 12.5\nEPS:")) "PE Ratio" =
      some (StockAnalysisService.expectedMetric
        (Except.ok "PE Ratio: 12.5\nEPS:") "PE Ratio") :=
  c9_extractKeyMetrics_defaults (Except.ok "PE Ratio: 12.5\nEPS:") "PE Ratio" (by decide)

/-- Claim C1 as amended: on the embedding-based primary path of
`sortSources`, every document in the returned ranked set has present,
non-whitespace content — documents failing the content guard are skipped
before scoring, for every query/embedding oracle and candidate list.
(The claim as stated also asserts this for `fallbackSorting`, which is
false: see the counterexample.) -/
theorem c1_primary_excludes_empty (sim : String → Option ℚ)
    (searchResults : List SortSourceService.Doc) (p : SortSourceService.Doc × ℚ)
    (hp : p ∈ SortSourceService.sortSourcesPrimary sim searchResults) :
    SortSourceService.emptyContent p.1.content = false := by
  unfold SortSourceService.sortSourcesPrimary at hp
  rw [SortSourceService.mem_sortByScoreDesc, List.mem_filterMap] at hp
  obtain ⟨r, _, hr⟩ := hp
  split at hr
  next => simp at hr
  next c heq =>
    split at hr
    next => simp at hr
    next ht =>
      split at hr
      next => simp at hr
      next score hs =>
        split at hr
        next =>
          injection hr with hpe
          rw [← hpe]
          simp [SortSourceService.emptyContent, heq, ht]
        next => simp at hr

/-- Witness for C1 as amended: a document with content `"hello"` and
similarity 1 is ranked, and its content is indeed non-blank. -/
theorem c1_primary_excludes_empty_witness :
    SortSourceService.emptyContent
      ((⟨some "t", some "hello"⟩ : SortSourceService.Doc), (1 : ℚ)).1.content = false := by
  apply c1_primary_excludes_empty (fun _ => some 1) [⟨some "t", some "hello"⟩]
  unfold SortSourceService.sortSourcesPrimary
  rw [SortSourceService.mem_sortByScoreDesc, List.mem_filterMap]
  refine ⟨⟨some "t", some "hello"⟩, by decide, ?_⟩
  show (if JsStr.trim "hello".data = [] then none
        else if (1 : ℚ) > 3/10
          then some ((⟨some "t", some "hello"⟩ : SortSourceService.Doc), (1 : ℚ))
          else none) =
    some ((⟨some "t", some "hello"⟩ : SortSourceService.Doc), (1 : ℚ))
  rw [if_neg (by decide : ¬ (JsStr.trim "hello".data = [])),
    if_pos (by norm_num : (1 : ℚ) > 3/10)]

/-- The fallback counterexample document: empty content, matching title. -/
def c1Doc : SortSourceService.Doc := ⟨some "apple", some ""⟩

theorem c1_fallbackScore_eval :
    SortSourceService.fallbackScore "apple" c1Doc = 3/10 := by
  simp only [SortSourceService.fallbackScore]
  rw [show JsStr.splitCh ' ' (JsStr.toLower "apple".data) = ["apple".data] from by decide]
  simp only [List.map_cons, List.map_nil, List.sum_cons, List.sum_nil,
    List.length_cons, List.length_nil]
  rw [show JsStr.countOcc "apple".data
      (JsStr.toLower ((c1Doc.content.getD "").data)) = 0 from by decide]
  rw [show JsStr.countOcc "apple".data
      (JsStr.toLower ((c1Doc.title.getD "").data)) = 1 from by decide]
  norm_num [min_def]

/-- Counterexample to claim C1: on the keyword fallback path a document
whose content field is the empty string is nevertheless included in the
ranked set, because title matches alone push its score (0.3) above the
0.1 threshold — `fallbackSorting` has no content guard. -/
theorem c1_counterexample :
    SortSourceService.emptyContent c1Doc.content = true ∧
    c1Doc ∈ (SortSourceService.fallbackSorting "apple" [c1Doc]).map Prod.fst := by
  refine ⟨by decide, ?_⟩
  rw [List.mem_map]
  refine ⟨(c1Doc, SortSourceService.fallbackScore "apple" c1Doc), ?_, rfl⟩
  unfold SortSourceService.fallbackSorting
  rw [SortSourceService.mem_sortByScoreDesc, List.mem_filter]
  constructor
  · simp [List.mem_map]
  · rw [c1_fallbackScore_eval]
    norm_num

/-!
### Lemmas for C8 (replay fragment concatenation)
-/

namespace Server

theorem joinCh_append_groups (gs : List (List Char)) (h : gs ≠ []) :
    ((groups3 gs).map fun g => JsStr.joinCh ' ' g ++ [' ']).flatten =
      JsStr.joinCh ' ' gs ++ [' '] := by
  induction gs using groups3.induct with
  | case1 => exact absurd rfl h
  | case2 a => simp [groups3, JsStr.joinCh]
  | case3 a b => simp [groups3, JsStr.joinCh]
  | case4 a b c rest ih =>
    cases hr : rest with
    | nil =>
      subst hr
      simp [groups3, JsStr.joinCh]
    | cons r rs =>
      subst hr
      have hne : r :: rs ≠ [] := List.cons_ne_nil r rs
      simp only [groups3, List.map_cons, List.flatten_cons, ih hne]
      simp [JsStr.joinCh, List.append_assoc]

theorem chatReplayFragments_join (response : String) :
    (chatReplayFragments response).flatten = response.data ++ [' '] := by
  unfold chatReplayFragments
  rw [joinCh_append_groups _ (JsStr.splitCh_ne_nil ' ' response.data),
    JsStr.joinCh_splitCh]

theorem regexChunksAux_join (fuel : Nat) :
    ∀ l : List Char, l.length ≤ fuel →
      (regexChunksAux fuel l).flatten = l.filter fun c => !isLineTerm c := by
  induction fuel with
  | zero =>
    intro l hl
    cases l with
    | nil => rfl
    | cons c rest => exact absurd hl (by simp)
  | succ fuel ih =>
    intro l hl
    cases l with
    | nil => rfl
    | cons c rest =>
      by_cases hc : isLineTerm c = true
      · simp only [regexChunksAux, if_pos hc]
        rw [ih rest (by simpa using Nat.le_of_succ_le_succ hl)]
        simp [hc]
      · simp only [regexChunksAux, if_neg hc]
        set m := ((c :: rest).takeWhile fun x => !isLineTerm x).take 50 with hm
        have hmpre : m <+: (c :: rest) :=
          List.IsPrefix.trans (List.take_prefix _ _) (List.takeWhile_prefix _)
        have hmlen : 1 ≤ m.length := by
          rw [hm]
          rw [List.takeWhile_cons_of_pos (by simp [hc])]
          simp
        have hdroplen : ((c :: rest).drop m.length).length ≤ fuel := by
          rw [List.length_drop]
          simp only [List.length_cons] at hl ⊢
          omega
        rw [List.flatten_cons, ih _ hdroplen]
        have hmtake : m = (c :: rest).take m.length := by
          rw [List.prefix_iff_eq_take] at hmpre
          exact hmpre
        have hmall : ∀ x ∈ m, (!isLineTerm x) = true := by
          intro x hx
          have : x ∈ (c :: rest).takeWhile fun x => !isLineTerm x :=
            List.mem_of_mem_take (hm ▸ hx)
          have h2 := List.mem_takeWhile_imp this
          exact h2
        calc m ++ List.filter (fun c => !isLineTerm c) ((c :: rest).drop m.length)
            = List.filter (fun c => !isLineTerm c) m ++
              List.filter (fun c => !isLineTerm c) ((c :: rest).drop m.length) := by
              rw [List.filter_eq_self.2 hmall]
          _ = List.filter (fun c => !isLineTerm c)
                ((c :: rest).take m.length ++ (c :: rest).drop m.length) := by
              rw [List.filter_append, ← hmtake]
          _ = List.filter (fun c => !isLineTerm c) (c :: rest) := by
              rw [List.take_append_drop]

theorem regexChunksAux_nil_iff (fuel : Nat) :
    ∀ l : List Char, l.length ≤ fuel →
      (regexChunksAux fuel l = [] ↔ l.all isLineTerm = true) := by
  induction fuel with
  | zero =>
    intro l hl
    cases l with
    | nil => simp [regexChunksAux]
    | cons c rest => exact absurd hl (by simp)
  | succ fuel ih =>
    intro l hl
    cases l with
    | nil => simp [regexChunksAux]
    | cons c rest =>
      by_cases hc : isLineTerm c = true
      · simp only [regexChunksAux, if_pos hc, List.all_cons, hc, Bool.true_and]
        exact ih rest (by simpa using Nat.le_of_succ_le_succ hl)
      · simp only [regexChunksAux, if_neg hc, List.all_cons]
        simp [hc]

end Server

/-- Claim C8 as amended: on a cache-hit replay the emitted fragments
reassemble the cached text up to two deliberate discrepancies of the
splitting code, for every cached text.  Chat sessions: the word-group
fragments concatenate to the cached response plus exactly one extra
trailing space (every group is emitted with a trailing space).  Stock
sessions: if the cached analysis has at least one character outside the
line-terminator class, the fixed-length slices concatenate to the
analysis with every line-terminator character deleted (the regexp `.`
skips them); otherwise the single fallback fragment is the analysis
itself, unchanged. -/
theorem c8_replay_concatenation :
    (∀ response : String,
      (Server.chatReplayFragments response).flatten = response.data ++ [' ']) ∧
    (∀ analysis : String,
      (Server.stockReplayFragments analysis).flatten =
        if analysis.data.all Server.isLineTerm = true then analysis.data
        else analysis.data.filter fun c => !Server.isLineTerm c) := by
  refine ⟨Server.chatReplayFragments_join, ?_⟩
  intro analysis
  unfold Server.stockReplayFragments Server.regexChunks
  by_cases hch : Server.regexChunksAux analysis.data.length analysis.data = []
  · rw [if_pos hch,
      if_pos ((Server.regexChunksAux_nil_iff analysis.data.length analysis.data
        (Nat.le_refl _)).1 hch)]
    simp
  · rw [if_neg hch,
      if_neg (fun hA => hch ((Server.regexChunksAux_nil_iff analysis.data.length
        analysis.data (Nat.le_refl _)).2 hA))]
    exact Server.regexChunksAux_join analysis.data.length analysis.data (Nat.le_refl _)

/-- Counterexample to claim C8: the chat replay of the cached response
`"hi"` concatenates to `"hi "` (an extra trailing space), and the stock
replay of an analysis containing a newline drops it. -/
theorem c8_counterexample :
    (Server.chatReplayFragments "hi").flatten ≠ "hi".data ∧
    (Server.stockReplayFragments (String.mk ['a', '\n', 'b'])).flatten ≠
      ['a', '\n', 'b'] := by
  exact ⟨by decide, by decide⟩

/-!
### Lemmas for C5 (event ordering)
-/

namespace Server

theorem map_const_content {α : Type} (l : List α) :
    (l.map fun _ => Ev.content) = List.replicate l.length Ev.content := by
  induction l with
  | nil => rfl
  | cons a rest ih => simp [ih, List.replicate]

theorem mem_of_split {x : Ev} {t l1 l2 : List Ev} (h : t = l1 ++ x :: l2) :
    x ∈ t := by
  subst h
  simp

theorem orderOk_error_trace : orderOk [Ev.error] := by
  refine ⟨?_, ?_, ?_⟩
  · intro l1 l2 h
    exact absurd (mem_of_split h) (by decide)
  · intro l1 l2 h
    exact absurd (mem_of_split h) (by decide)
  · intro l1 l2 h
    cases l1 with
    | nil =>
      injection h with h1 h2
      rw [← h2]
      decide
    | cons a l1x =>
      injection h with h1 h2
      exact absurd h2.symm (List.append_ne_nil_of_right_ne_nil l1x (List.cons_ne_nil _ _))

theorem orderOk_chat_shape (n : Nat) :
    orderOk (Ev.searchResult :: (List.replicate n Ev.content ++ [Ev.done])) := by
  refine ⟨?_, ?_, ?_⟩
  · intro l1 l2 h
    cases l1 with
    | nil =>
      injection h with h1 h2
      exact absurd h1 (by decide)
    | cons a l1x =>
      injection h with h1 h2
      rw [h1]
      exact List.mem_cons_self a l1x
  · intro l1 l2 h
    have hm := mem_of_split h
    rw [List.mem_cons, List.mem_append, List.mem_replicate] at hm
    rcases hm with hm | hm | hm
    · exact absurd hm (by decide)
    · exact absurd hm.2 (by decide)
    · exact absurd hm (by decide)
  · intro l1 l2 h
    have hm := mem_of_split h
    rw [List.mem_cons, List.mem_append, List.mem_replicate] at hm
    rcases hm with hm | hm | hm
    · exact absurd hm (by decide)
    · exact absurd hm.2 (by decide)
    · exact absurd hm (by decide)

theorem replicate_metrics_split (n : Nat) :
    ∀ l1 l2 : List Ev,
      List.replicate n Ev.content ++ [Ev.metrics, Ev.done] = l1 ++ Ev.metrics :: l2 →
      l2 = [Ev.done] := by
  induction n with
  | zero =>
    intro l1 l2 h
    rw [List.replicate_zero, List.nil_append] at h
    cases l1 with
    | nil =>
      injection h with h1 h2
      exact h2.symm
    | cons a l1x =>
      injection h with h1 h2
      cases l1x with
      | nil =>
        injection h2 with h3 h4
        exact absurd h3 (by decide)
      | cons b l1y =>
        injection h2 with h3 h4
        exact absurd h4.symm
          (List.append_ne_nil_of_right_ne_nil l1y (List.cons_ne_nil _ _))
  | succ n ih =>
    intro l1 l2 h
    rw [List.replicate_succ, List.cons_append] at h
    cases l1 with
    | nil =>
      injection h with h1 h2
      exact absurd h1 (by decide)
    | cons a l1x =>
      injection h with h1 h2
      exact ih l1x l2 h2

theorem orderOk_stock_shape (n : Nat) :
    orderOk (Ev.searchResult :: Ev.processing ::
      (List.replicate n Ev.content ++ [Ev.metrics, Ev.done])) := by
  refine ⟨?_, ?_, ?_⟩
  · intro l1 l2 h
    cases l1 with
    | nil =>
      injection h with h1 h2
      exact absurd h1 (by decide)
    | cons a l1x =>
      injection h with h1 h2
      rw [h1]
      exact List.mem_cons_self a l1x
  · intro l1 l2 h
    cases l1 with
    | nil =>
      injection h with h1 h2
      exact absurd h1 (by decide)
    | cons a l1x =>
      injection h with h1 h2
      cases l1x with
      | nil =>
        injection h2 with h3 h4
        exact absurd h3 (by decide)
      | cons b l1y =>
        injection h2 with h3 h4
        rw [replicate_metrics_split n l1y l2 h4]
        exact ⟨by decide, by decide⟩
  · intro l1 l2 h
    have hm := mem_of_split h
    rw [List.mem_cons, List.mem_cons, List.mem_append, List.mem_replicate] at hm
    rcases hm with hm | hm | hm | hm
    · exact absurd hm (by decide)
    · exact absurd hm (by decide)
    · exact absurd hm.2 (by decide)
    · rw [List.mem_cons, List.mem_singleton] at hm
      rcases hm with hm | hm
      · exact absurd hm (by decide)
      · exact absurd hm (by decide)

theorem chatTrace_shape (q cached : Option String) (chunks : List String)
    (ws : Bool) :
    chatTrace q cached chunks ws = [Ev.error] ∨
    ∃ n, chatTrace q cached chunks ws =
      Ev.searchResult :: (List.replicate n Ev.content ++ [Ev.done]) := by
  unfold chatTrace
  by_cases hq : falsyStr q = true
  · rw [if_pos hq]
    exact Or.inl rfl
  · rw [if_neg hq]
    cases cached with
    | some response =>
      refine Or.inr ⟨(chatReplayFragments response).length, ?_⟩
      show Ev.searchResult ::
        ((chatReplayFragments response).map fun _ => Ev.content) ++ [Ev.done] = _
      rw [map_const_content]
      simp [List.cons_append]
    | none =>
      cases ws with
      | false => exact Or.inl rfl
      | true =>
        refine Or.inr ⟨chunks.length, ?_⟩
        show Ev.searchResult :: (chunks.map fun _ => Ev.content) ++ [Ev.done] = _
        rw [map_const_content]
        simp [List.cons_append]

theorem stockTrace_shape (sn cached : Option String) (chunks : List String)
    (ws : Bool) :
    stockTrace sn cached chunks ws = [Ev.error] ∨
    ∃ n, stockTrace sn cached chunks ws =
      Ev.searchResult :: Ev.processing ::
        (List.replicate n Ev.content ++ [Ev.metrics, Ev.done]) := by
  unfold stockTrace
  by_cases hn : falsyStr sn = true
  · rw [if_pos hn]
    exact Or.inl rfl
  · rw [if_neg hn]
    cases cached with
    | some analysis =>
      refine Or.inr ⟨(stockReplayFragments analysis).length, ?_⟩
      show Ev.searchResult :: Ev.processing ::
        ((stockReplayFragments analysis).map fun _ => Ev.content) ++
          [Ev.metrics, Ev.done] = _
      rw [map_const_content]
      simp [List.cons_append]
    | none =>
      cases ws with
      | false => exact Or.inl rfl
      | true =>
        refine Or.inr ⟨chunks.length, ?_⟩
        show Ev.searchResult :: Ev.processing ::
          (chunks.map fun _ => Ev.content) ++ [Ev.metrics, Ev.done] = _
        rw [map_const_content]
        simp [List.cons_append]

end Server

/-- Claim C5: in every session of either WebSocket handler — chat or
stock-analysis, cache hit or miss, validation failure or collaborator
failure — the emitted event sequence satisfies the ordering guarantees:
the sources event precedes every content fragment, a metrics event (when
one is emitted) comes after the last content fragment with the done event
after it, and no done event follows an error event. -/
theorem c5_event_ordering (q cachedChat : Option String)
    (chatChunks : List String) (ws1 : Bool) (sn cachedStock : Option String)
    (stockChunks : List String) (ws2 : Bool) :
    Server.orderOk (Server.chatTrace q cachedChat chatChunks ws1) ∧
    Server.orderOk (Server.stockTrace sn cachedStock stockChunks ws2) := by
  constructor
  · rcases Server.chatTrace_shape q cachedChat chatChunks ws1 with h | ⟨n, h⟩
    · rw [h]; exact Server.orderOk_error_trace
    · rw [h]; exact Server.orderOk_chat_shape n
  · rcases Server.stockTrace_shape sn cachedStock stockChunks ws2 with h | ⟨n, h⟩
    · rw [h]; exact Server.orderOk_error_trace
    · rw [h]; exact Server.orderOk_stock_shape n

/-- Witness for C5: in the concrete miss-path chat trace
`[search_result, content, done]` the split around the content event has
the sources event in its prefix. -/
theorem c5_event_ordering_witness :
    Server.Ev.searchResult ∈ [Server.Ev.searchResult] :=
  (c5_event_ordering (some "q") none ["hi"] true (some "s") none ["x"] true).1.1
    [Server.Ev.searchResult] [Server.Ev.done] (by decide)
